import Mathlib

/-!
Verification development for the `asistente-legal-sf` repository.

The repository is a Python RAG chat backend (`src/api.py`, `src/api/index.py`,
`src/knowledge.py`) plus an offline ingestion script (`src/index_data.py`) and a
count-checking utility (`src/check_pinecone.py`).  This file gives a shallow
embedding of the string processing, the request-handling control flow, the
ingestion batching loop and the configuration constants those scripts contain,
and proves properties about them.

Strings are modelled as `List Char`.  Python's `str.split`, `str.replace`,
`str.strip` and the `in` substring test are modelled by executable functions
below with the same semantics (non-overlapping, left-to-right matching).
-/

/-! ## Python string primitives on `List Char` -/

/-- `startsWith pat l` is true iff `pat` is an initial segment of `l`. -/
def startsWith : List Char → List Char → Bool
  | [], _ => true
  | _ :: _, [] => false
  | p :: ps, c :: cs => p == c && startsWith ps cs

/-- First occurrence of `pat` in `l`: returns `some (before, after)` where
`l = before ++ pat ++ after` and `before` is shortest possible, or `none` when
`pat` does not occur.  This is the building block for Python's `str.split`:
`l.split(pat)[0]` is `before` (or `l`), and the list tail of the split is the
split of `after`. -/
def splitFirst (pat : List Char) : List Char → Option (List Char × List Char)
  | [] => if startsWith pat [] then some ([], []) else none
  | c :: rest =>
    if startsWith pat (c :: rest) then some ([], (c :: rest).drop pat.length)
    else (splitFirst pat rest).map (fun x => (c :: x.1, x.2))

/-- Python `l.split(pat)[0]`: the part before the first occurrence of `pat`,
or all of `l` when `pat` does not occur. -/
def splitHead (pat l : List Char) : List Char :=
  match splitFirst pat l with
  | some (a, _) => a
  | none => l

/-- Python's substring test `pat in l`. -/
def containsSub (pat l : List Char) : Bool :=
  (splitFirst pat l).isSome

/-- Fuel-indexed worker for `replaceAll`; the fuel is always at least the
length of the list, so the exhaustion arm is never reached. -/
def replaceAllAux (pat rep : List Char) : Nat → List Char → List Char
  | _, [] => []
  | 0, c :: rest => c :: rest
  | Nat.succ fuel, c :: rest =>
    if pat.isEmpty then c :: rest
    else if startsWith pat (c :: rest) then
      rep ++ replaceAllAux pat rep fuel ((c :: rest).drop pat.length)
    else c :: replaceAllAux pat rep fuel rest

/-- Python `l.replace(pat, rep)`: replace every non-overlapping occurrence of
`pat`, scanning left to right.  (Python raises on an empty pattern; the
`pat.isEmpty` guard is never taken by the callers below.) -/
def replaceAll (pat rep l : List Char) : List Char :=
  replaceAllAux pat rep l.length l

/-- The whitespace set of Python's `str.strip()` (ASCII part; the inputs of
interest are produced from these scripts' ASCII string literals). -/
def isPySpace (c : Char) : Bool :=
  c == ' ' || c == '\t' || c == '\n' || c == '\r' || c == '\x0b' || c == '\x0c'

/-- Remove trailing characters satisfying `p`. -/
def dropTrail (p : Char → Bool) (l : List Char) : List Char :=
  (l.reverse.dropWhile p).reverse

/-- Python `l.strip(set)` for a character class `p`: drop leading and trailing
characters satisfying `p`. -/
def stripBy (p : Char → Bool) (l : List Char) : List Char :=
  dropTrail p (l.dropWhile p)

/-- Python `l.strip()` (no argument): strip whitespace at both ends. -/
def pyStrip (l : List Char) : List Char :=
  stripBy isPySpace l

/-! ## Model of `src/api.py` -/

/-- `INDEX_NAME` (src/api.py line 15). -/
def INDEX_NAME : List Char := "sf-abogados-01".toList

/-- `GENERATION_MODEL` (src/api.py line 17). -/
def GENERATION_MODEL : List Char := "gpt-4o-mini".toList

/-- `summary_start_tag` (src/api.py line 261). -/
def SLIST : List Char := "[INTERNAL_SUMMARY_START]".toList

/-- `summary_end_tag` (src/api.py line 262). -/
def ELIST : List Char := "[INTERNAL_SUMMARY_END]".toList

/-- The separator joining retrieved chunk texts (src/api.py line 217). -/
def NLNL : List Char := "\n\n".toList

/-- The generic detail of the HTTP 500 response (src/api.py line 287). -/
def generic_error_detail : List Char :=
  "Error interno del servidor al procesar la solicitud.".toList

/-- One call to the chat-completion API (src/api.py lines 235-239): the model
name, the `temperature` argument, and the RAG context text that was spliced
into the final user message (line 217/220).  The fixed system prompt and the
caller-supplied history are part of the request as well but play no role in
any claim, so they are not tracked. -/
structure ChatCall where
  modelName : List Char
  temperature : ℚ
  context : List Char
deriving Repr

/-- Trace of outbound calls made while handling one `/query` request:
how many embedding requests (`generate_embedding`), vector-index queries
(`retrieve_context`), chat completions, and the `(subject, body)` argument
pairs of every `send_summary_email` invocation. -/
structure Calls where
  embed : Nat
  retrieve : Nat
  chat : List ChatCall
  emailArgs : List (List Char × List Char)
deriving Repr

/-- The request-level oracle: outcomes of the external services consulted by
`process_query`.  `recaptcha_ok` is the value returned by `validate_recaptcha`
(src/api.py lines 143-155); `queryMatches` are the metadata texts of the vector
query results (line 217 reads `item['metadata']['text']` of each match);
`chatChoices` are the message contents of the chat completion's `choices`
(line 241 takes `choices[0]`). -/
structure Env where
  recaptcha_ok : Bool
  queryMatches : List (List Char)
  chatChoices : List (List Char)

/-- Lines 260-281 of src/api.py: detect the internal summary block in the raw
model output, compute the text handed to `send_summary_email` (line 268:
`raw.split(start)[1].split(end)[0].strip()`), and the cleaned user response
(line 274: `raw.replace(start + summary + end, "").strip()`).  Returns the
user response and the `(subject, body)` pairs sent to `send_summary_email`
(line 271 passes the summary text for both).  The `except` at lines 275-278
is unreachable: within the branch the split at line 268 cannot raise (both
tags were checked to occur) and `send_summary_email` catches its own errors.
When a tag is absent the raw text is passed through untouched (line 281). -/
def postprocess (raw : List Char) : List Char × List (List Char × List Char) :=
  if containsSub SLIST raw && containsSub ELIST raw then
    let afterS := ((splitFirst SLIST raw).map (fun x => x.2)).getD []
    let seg := splitHead SLIST afterS
    let summary := pyStrip (splitHead ELIST seg)
    let ans := pyStrip (replaceAll (SLIST ++ (summary ++ ELIST)) [] raw)
    (ans, [(summary, summary)])
  else
    (raw, [])

/-- The `/query` endpoint `process_query` (src/api.py lines 247-287), as a
function of the request-level oracle.  Returns the HTTP status and body text
plus the trace of outbound calls.

Control flow being modelled: the whole handler body sits in a `try` whose
`except Exception` (line 285) raises `HTTPException(500)`.  FastAPI's
`HTTPException` derives from `Exception`, so the `HTTPException(403)` raised
at line 252 on a failed recaptcha is itself caught at line 285 and replaced
by the 500 response.  When the chat completion returns no choices, the
`choices[0]` access at line 241 raises and is likewise turned into a 500.
Network failures of the embedding/vector/chat clients would also surface as
500s; they are not tracked because no claim depends on them. -/
def process_query (env : Env) : (Nat × List Char) × Calls :=
  if env.recaptcha_ok then
    let ctx := List.intercalate NLNL env.queryMatches
    match env.chatChoices with
    | [] =>
      ((500, generic_error_detail),
        ⟨1, 1, [⟨GENERATION_MODEL, 0, ctx⟩], []⟩)
    | raw :: _ =>
      let pp := postprocess raw
      ((200, pp.1), ⟨1, 1, [⟨GENERATION_MODEL, 0, ctx⟩], pp.2⟩)
  else
    ((500, generic_error_detail), ⟨0, 0, [], []⟩)

/-! ## Model of `send_summary_email` (src/api.py lines 91-139) -/

/-- The SMTP environment variables read at startup (src/api.py lines 58-61).
`None` models an unset variable. -/
structure SmtpConfig where
  server : Option (List Char)
  port : Option (List Char)
  username : Option (List Char)
  password : Option (List Char)

/-- Outcome of the SMTP connect/login/send sequence (lines 115-139). -/
inductive SmtpOutcome
  | ok
  | authFail
  | otherFail

/-- The `"Subject:"` marker split on at line 102. -/
def subjMark : List Char := "Subject:".toList

/-- The `"Body:"` marker split on at line 103. -/
def bodyMark : List Char := "Body:".toList

/-- The substitute subject used when parsing fails (line 106). -/
def fallbackSubject : List Char :=
  "Alerta: Resumen de Lead con Error de Formato".toList

/-- Lines 100-107: extract `(subject_line, body_content)`.  `split(m)[1]`
raises `IndexError` exactly when the marker is absent; the handler then uses
the fallback subject and the raw `subject` argument as body.  Note the
success case requires both markers: if `"Subject:"` parses but `"Body:"` is
absent, the `IndexError` from line 103 discards the already-parsed subject. -/
def parse_subject_body (subject body : List Char) : List Char × List Char :=
  if containsSub subjMark subject && containsSub bodyMark body then
    (pyStrip (splitHead subjMark (((splitFirst subjMark subject).map (fun x => x.2)).getD [])),
     pyStrip (splitHead bodyMark (((splitFirst bodyMark body).map (fun x => x.2)).getD [])))
  else
    (fallbackSubject, subject)

/-- `send_summary_email` (src/api.py lines 91-139).  Returns the boolean
result together with the `(subject_line, body_content)` of the message that
was constructed, `none` when the configuration check at line 95 bailed out
before constructing one.  Every failure path returns `False`: missing SMTP
variables (line 97), an unsupported port (line 125), an authentication error
(line 136) and any other SMTP exception (line 139). -/
def send_summary_email (cfg : SmtpConfig) (outcome : SmtpOutcome)
    (subject body : List Char) : Bool × Option (List Char × List Char) :=
  if cfg.server.isNone || cfg.port.isNone || cfg.username.isNone || cfg.password.isNone then
    (false, none)
  else
    let parsed := parse_subject_body subject body
    if cfg.port == some ("465".toList) || cfg.port == some ("587".toList) then
      match outcome with
      | SmtpOutcome.ok => (true, some parsed)
      | SmtpOutcome.authFail => (false, some parsed)
      | SmtpOutcome.otherFail => (false, some parsed)
    else
      (false, some parsed)

/-! ## Model of `src/api/index.py` (the llama-index variant) -/

/-- The LLM configuration installed by `initialize_index`. -/
structure LlmConfig where
  modelName : List Char
  temperature : ℚ

/-- Line 37 of src/api/index.py:
`Settings.llm = OpenAI(model="gpt-4-turbo", temperature=0.1)`. -/
def initialize_index_llm : LlmConfig :=
  ⟨"gpt-4-turbo".toList, 1 / 10⟩

/-! ## Model of `src/index_data.py` -/

/-- `BATCH_SIZE` (src/index_data.py line 17). -/
def BATCH_SIZE : Nat := 50

/-- What happened to one chunk produced by `chunk_by_title` (src/index_data.py
lines 103-134): its text was whitespace-only and it was skipped (line 104),
the embedding request failed and the chunk was skipped (lines 130-132), or
the embedding succeeded and the vector was appended to the pending batch
(lines 128-129).  File iteration order flattens into one chunk stream: the
pending batch `vectors_to_upsert` persists across files, and a file whose
parse fails simply contributes no chunks (lines 149-151). -/
inductive ChunkEv
  | emptyText
  | embedFail
  | embedOk

/-- Number of successfully embedded chunks in a chunk stream. -/
def okCount : List ChunkEv → Nat
  | [] => 0
  | ChunkEv.embedOk :: l => okCount l + 1
  | ChunkEv.emptyText :: l => okCount l
  | ChunkEv.embedFail :: l => okCount l

/-- The mutable state of `index_data_optimized`'s loop: `batch` is
`len(vectors_to_upsert)`, `total_vectors` the script's counter, and two
bookkeeping quantities not in the source: the number of `upsert` calls made
and the total number of vectors passed to those calls. -/
structure IngestState where
  batch : Nat
  total_vectors : Nat
  upsertCalls : Nat
  submitted : Nat
deriving Repr

/-- One iteration of the chunk loop (src/index_data.py lines 103-147).  On a
successful embedding the vector is appended and `total_vectors` incremented
(lines 128-129); when the batch reaches `BATCH_SIZE` it is upserted and
cleared (lines 136-147) — the batch is cleared whether the upsert succeeds
(line 144) or fails (line 147), so the mid-stream upsert outcome changes no
tracked quantity and a failed batch is dropped without retry. -/
def stepChunk (st : IngestState) (ev : ChunkEv) : IngestState :=
  match ev with
  | ChunkEv.emptyText => st
  | ChunkEv.embedFail => st
  | ChunkEv.embedOk =>
    let st1 : IngestState :=
      ⟨st.batch + 1, st.total_vectors + 1, st.upsertCalls, st.submitted⟩
    if st1.batch ≥ BATCH_SIZE then
      ⟨0, st1.total_vectors, st1.upsertCalls + 1, st1.submitted + st1.batch⟩
    else
      st1

/-- Configuration and outcomes for one run of `index_data_optimized`:
whether the Pinecone/OpenAI clients initialize (lines 67-77; missing API
credentials make this `false`), the chunk stream, and the outcome of the
`k`-th upsert call (0-based). -/
structure IngestEnv where
  initOk : Bool
  chunks : List ChunkEv
  upsertOk : Nat → Bool

/-- `index_data_optimized` (src/index_data.py lines 61-169).  Client
initialization failure is caught and the function just returns (lines 75-77).
After the chunk loop, a non-empty remainder batch is upserted (lines 156-166);
on success `total_vectors += len(vectors_to_upsert)` (line 163) even though
those vectors were already counted at line 129.  The reported total
(line 169) is the final `total_vectors`. -/
def index_data_optimized (env : IngestEnv) : IngestState :=
  if env.initOk then
    let st := env.chunks.foldl stepChunk ⟨0, 0, 0, 0⟩
    if st.batch > 0 then
      if env.upsertOk st.upsertCalls then
        ⟨0, st.total_vectors + st.batch, st.upsertCalls + 1, st.submitted + st.batch⟩
      else
        ⟨st.batch, st.total_vectors, st.upsertCalls + 1, st.submitted + st.batch⟩
    else
      st
  else
    ⟨0, 0, 0, 0⟩

/-- `sanitize_filename` (src/index_data.py lines 51-58), modelled on the
ASCII content of the input.  The source first applies
`unicodedata.normalize('NFKD', filename).encode('ascii', 'ignore')`: NFKD
decomposition (a fixed Unicode table mapping, e.g. accented letters into base
letter plus combining mark) followed by discarding every non-ASCII code
point.  The table itself is not reproduced here; the decomposition only
changes which ASCII characters survive the `'ignore'` filter, so it is
modelled as the identity and the filter keeps code points below 128.  Every
later step operates on that ASCII string exactly as the source does (for
ASCII characters Python's `str.isalnum` agrees with `Char.isAlphanum`). -/
def sanitize_filename (filename : List Char) : List Char :=
  let normalized := filename.filter (fun c => c.toNat < 128)
  let safe_chars :=
    normalized.map (fun c => if c.isAlphanum || c == '.' || c == '-' then c else '_')
  stripBy (fun c => c == '_') (replaceAll "__".toList "_".toList safe_chars)

/-- The vector id built at line 105:
`chunk_id = f"{sanitized_file}_{i}_{uuid.uuid4()}"`. -/
def make_chunk_id (file : List Char) (i : Nat) (uuid : List Char) : List Char :=
  sanitize_filename file ++ ('_' :: ((Nat.repr i).toList ++ ('_' :: uuid)))

/-- Outcome of the download attempt inside `download_and_extract_data`
(src/index_data.py lines 30-48). -/
inductive DlOutcome
  | ok
  | netError
  | badZip
  | otherError

/-- `download_and_extract_data` (lines 21-48).  A missing `DATA_URL` raises
`ValueError` at line 24 — this sits before the `try`, so the exception
escapes the function.  Inside the `try`, a network/HTTP error, a corrupt ZIP
and any other exception are each caught and turn into `return False`
(lines 40-48); success returns `True`.  (An unset `DATA_URL` is `None`;
Python's `if not url` also treats an empty string this way.) -/
def download_and_extract_data (url : Option (List Char)) (o : DlOutcome) :
    Except Unit Bool :=
  match url with
  | none => Except.error ()
  | some _ =>
    match o with
    | DlOutcome.ok => Except.ok true
    | DlOutcome.netError => Except.ok false
    | DlOutcome.badZip => Except.ok false
    | DlOutcome.otherError => Except.ok false

/-- Configuration and outcomes for one run of the script's `__main__` block. -/
structure MainEnv where
  dataUrl : Option (List Char)
  dl : DlOutcome
  ingest : IngestEnv

/-- The `__main__` block (src/index_data.py lines 173-189) as the process
exit code.  The script contains no `sys.exit` call: a failed download only
prints `PROCESO FALLIDO` and falls through to the cleanup, and the
interpreter exits 0; `index_data_optimized` handles all its errors
internally; the cleanup's `shutil.rmtree` failure is caught (lines 184-187).
The only non-zero exit is the uncaught `ValueError` from a missing
`DATA_URL`. -/
def main_exit (env : MainEnv) : Nat :=
  match download_and_extract_data env.dataUrl env.dl with
  | Except.error _ => 1
  | Except.ok false => 0
  | Except.ok true =>
    let _ := index_data_optimized env.ingest
    0

/-! ## Lemmas about the string primitives -/

theorem startsWith_iff (pat l : List Char) :
    startsWith pat l = true ↔ ∃ r, l = pat ++ r := by
  induction pat generalizing l with
  | nil =>
    simp [startsWith]
  | cons p ps ih =>
    cases l with
    | nil => simp [startsWith]
    | cons c cs =>
      simp only [startsWith, Bool.and_eq_true, beq_iff_eq, ih]
      constructor
      · rintro ⟨hpc, r, hr⟩
        exact ⟨r, by rw [hpc, hr]; rfl⟩
      · rintro ⟨r, hr⟩
        injection hr with h1 h2
        exact ⟨h1.symm, r, h2⟩

theorem splitFirst_eq_some (pat : List Char) :
    ∀ (l a b : List Char), splitFirst pat l = some (a, b) → l = a ++ (pat ++ b) := by
  intro l
  induction l with
  | nil =>
    intro a b h
    cases pat with
    | nil => simp [splitFirst, startsWith] at h; simp [h.1, h.2]
    | cons p ps => simp [splitFirst, startsWith] at h
  | cons c cs ih =>
    intro a b h
    by_cases hsw : startsWith pat (c :: cs) = true
    · simp only [splitFirst, hsw, if_pos] at h
      obtain ⟨r, hr⟩ := (startsWith_iff pat (c :: cs)).mp hsw
      have hdrop : (c :: cs).drop pat.length = r := by
        rw [hr, List.drop_left]
      rw [hdrop] at h
      injection h with h
      injection h with h1 h2
      rw [← h1, ← h2, hr]
      rfl
    · simp only [splitFirst, hsw, if_neg, Bool.false_eq_true, not_false_iff] at h
      cases hs : splitFirst pat cs with
      | none => rw [hs] at h; simp at h
      | some x =>
        obtain ⟨a2, b2⟩ := x
        rw [hs] at h
        simp only [Option.map_some'] at h
        injection h with h
        injection h with h1 h2
        rw [← h1, ← h2, List.cons_append]
        rw [ih a2 b2 hs]

theorem containsSub_iff (pat l : List Char) :
    containsSub pat l = true ↔ ∃ a b, l = a ++ (pat ++ b) := by
  constructor
  · intro h
    unfold containsSub at h
    cases hs : splitFirst pat l with
    | none => rw [hs] at h; simp at h
    | some x =>
      obtain ⟨a, b⟩ := x
      exact ⟨a, b, splitFirst_eq_some pat l a b hs⟩
  · rintro ⟨a, b, rfl⟩
    induction a with
    | nil =>
      simp only [List.nil_append]
      cases pat with
      | nil =>
        cases b with
        | nil => simp [containsSub, splitFirst, startsWith]
        | cons x xs => simp [containsSub, splitFirst, startsWith]
      | cons p ps =>
        have hsw : startsWith (p :: ps) ((p :: ps) ++ b) = true :=
          (startsWith_iff _ _).mpr ⟨b, rfl⟩
        rw [List.cons_append] at hsw ⊢
        simp [containsSub, splitFirst, hsw]
    | cons c a2 ih =>
      rw [List.cons_append]
      by_cases hsw : startsWith pat (c :: (a2 ++ (pat ++ b))) = true
      · simp [containsSub, splitFirst, hsw]
      · simp only [containsSub, splitFirst, hsw, if_neg, Bool.false_eq_true, not_false_iff]
        unfold containsSub at ih
        cases hs : splitFirst pat (a2 ++ (pat ++ b)) with
        | none => rw [hs] at ih; simp at ih
        | some x => simp

theorem containsSub_left_extend (pat l x : List Char)
    (h : containsSub pat l = true) : containsSub pat (x ++ l) = true := by
  obtain ⟨a, b, rfl⟩ := (containsSub_iff pat l).mp h
  exact (containsSub_iff pat _).mpr ⟨x ++ a, b, by rw [List.append_assoc]⟩

theorem containsSub_right_extend (pat l y : List Char)
    (h : containsSub pat l = true) : containsSub pat (l ++ y) = true := by
  obtain ⟨a, b, rfl⟩ := (containsSub_iff pat l).mp h
  exact (containsSub_iff pat _).mpr ⟨a, b ++ y, by simp [List.append_assoc]⟩

theorem containsSub_of_startsWith (pat l : List Char)
    (h : startsWith pat l = true) : containsSub pat l = true := by
  obtain ⟨r, rfl⟩ := (startsWith_iff pat l).mp h
  exact (containsSub_iff pat _).mpr ⟨[], r, rfl⟩

/-- `S` has no non-trivial border: no proper non-empty suffix of `S` is also
a prefix of `S`.  Both sentinel tags have this property (each contains the
character `'['` exactly once, at position 0). -/
def noBorderP (S : List Char) : Prop :=
  ∀ k, k < S.length → 0 < k → S.drop (S.length - k) ≠ S.take k

/-- An occurrence of a border-free pattern `S` cannot begin strictly inside
the `q` part of `q ++ (S ++ w)` unless `S` already occurs inside `q`:
in particular it cannot straddle the boundary. -/
theorem startsWith_eq_false_of_straddle (S q w : List Char) (hq : q ≠ [])
    (_hS : S ≠ []) (hnb : noBorderP S) (hni : containsSub S q = false) :
    startsWith S (q ++ (S ++ w)) = false := by
  cases hc : startsWith S (q ++ (S ++ w)) with
  | false => rfl
  | true =>
    exfalso
    obtain ⟨r, hr⟩ := (startsWith_iff S _).mp hc
    rcases le_or_lt S.length q.length with hle | hlt
    · -- the occurrence fits inside q
      have h1 : (q ++ (S ++ w)).take S.length = q.take S.length := by
        rw [List.take_append_eq_append_take, Nat.sub_eq_zero_of_le hle]
        simp
      have h2 : (S ++ r).take S.length = S := List.take_left S r
      have hS_eq : S = q.take S.length := by
        have hcong := congrArg (List.take S.length) hr
        rw [h1, h2] at hcong
        exact hcong.symm
      have hq_eq : q = S ++ q.drop S.length := by
        conv_lhs => rw [← List.take_append_drop S.length q]
        rw [← hS_eq]
      have : containsSub S q = true :=
        (containsSub_iff S q).mpr ⟨[], q.drop S.length, by simpa using hq_eq⟩
      rw [hni] at this
      simp at this
    · -- the occurrence straddles the boundary: S has a border
      have hq1 : 0 < q.length := List.length_pos.mpr hq
      have h1 : (q ++ (S ++ w)).take q.length = q := by
        rw [List.take_append_eq_append_take, Nat.sub_self]
        simp
      have h2 : (S ++ r).take q.length = S.take q.length := by
        rw [List.take_append_eq_append_take, Nat.sub_eq_zero_of_le (Nat.le_of_lt hlt)]
        simp
      have hqS : q = S.take q.length := by
        have hcong := congrArg (List.take q.length) hr
        rw [h1, h2] at hcong
        exact hcong
      have h3 : (q ++ (S ++ w)).drop q.length = S ++ w := by
        rw [List.drop_append_eq_append_drop, Nat.sub_self]
        simp
      have h4 : (S ++ r).drop q.length = S.drop q.length ++ r := by
        rw [List.drop_append_eq_append_drop, Nat.sub_eq_zero_of_le (Nat.le_of_lt hlt)]
        simp
      have h5 : S ++ w = S.drop q.length ++ r := by
        have hcong := congrArg (List.drop q.length) hr
        rw [h3, h4] at hcong
        exact hcong
      have hlen_drop : (S.drop q.length).length = S.length - q.length :=
        List.length_drop q.length S
      have h6 : (S ++ w).take (S.length - q.length) = S.take (S.length - q.length) := by
        rw [List.take_append_eq_append_take]
        have hz : S.length - q.length - S.length = 0 := by omega
        rw [hz]
        simp
      have h7 : (S.drop q.length ++ r).take (S.length - q.length) = S.drop q.length :=
        List.take_left' hlen_drop
      have hb : S.take (S.length - q.length) = S.drop q.length := by
        have hcong := congrArg (List.take (S.length - q.length)) h5
        rw [h6, h7] at hcong
        exact hcong
      have hk1 : 0 < S.length - q.length := by omega
      have hk2 : S.length - q.length < S.length := by omega
      have hmain := hnb (S.length - q.length) hk2 hk1
      have hqlen : S.length - (S.length - q.length) = q.length := by omega
      rw [hqlen] at hmain
      exact hmain hb.symm

/-- Locating the first occurrence of `pat` in `p ++ (pat ++ r)` when `pat`
begins with a non-empty border-free string `S` that does not occur in `p`. -/
theorem splitFirst_at (pat S p r : List Char) (hpre : startsWith S pat = true)
    (hS : S ≠ []) (hnb : noBorderP S) (hni : containsSub S p = false) :
    splitFirst pat (p ++ (pat ++ r)) = some (p, r) := by
  induction p with
  | nil =>
    simp only [List.nil_append]
    obtain ⟨t1, ht⟩ := (startsWith_iff S pat).mp hpre
    have hpat : pat ≠ [] := by
      intro h
      rw [h] at ht
      exact hS (List.append_eq_nil.mp ht.symm).1
    cases hpc : pat with
    | nil => exact absurd hpc hpat
    | cons c cs =>
      have hsw : startsWith (c :: cs) (c :: (cs ++ r)) = true :=
        (startsWith_iff _ _).mpr ⟨r, by simp⟩
      rw [List.cons_append]
      simp [splitFirst, hsw, List.drop_succ_cons, List.drop_left]
  | cons c p2 ih =>
    have hni2 : containsSub S p2 = false := by
      cases h : containsSub S p2 with
      | false => rfl
      | true =>
        exfalso
        have := containsSub_left_extend S p2 [c] h
        rw [List.singleton_append, hni] at this
        simp at this
    have hsw : startsWith pat (c :: (p2 ++ (pat ++ r))) = false := by
      cases hc : startsWith pat (c :: (p2 ++ (pat ++ r))) with
      | false => rfl
      | true =>
        exfalso
        obtain ⟨t1, ht⟩ := (startsWith_iff S pat).mp hpre
        obtain ⟨r2, hr2⟩ := (startsWith_iff pat _).mp hc
        have hSsw : startsWith S (c :: (p2 ++ (pat ++ r))) = true :=
          (startsWith_iff _ _).mpr ⟨t1 ++ r2, by rw [hr2, ht, List.append_assoc]⟩
        have hshape : c :: (p2 ++ (pat ++ r)) = (c :: p2) ++ (S ++ (t1 ++ r)) := by
          rw [ht]
          simp [List.append_assoc]
        rw [hshape] at hSsw
        rw [startsWith_eq_false_of_straddle S (c :: p2) (t1 ++ r) (by simp) hS hnb hni]
          at hSsw
        simp at hSsw
    show splitFirst pat ((c :: p2) ++ (pat ++ r)) = some (c :: p2, r)
    rw [List.cons_append]
    simp only [splitFirst, hsw, Bool.false_eq_true, if_false]
    rw [ih hni2]
    rfl

theorem splitFirst_eq_none (pat l : List Char) (h : containsSub pat l = false) :
    splitFirst pat l = none := by
  unfold containsSub at h
  cases hs : splitFirst pat l with
  | none => rfl
  | some x => rw [hs] at h; simp at h

theorem replaceAllAux_fuel (pat rep : List Char) :
    ∀ fuel (l : List Char), l.length ≤ fuel →
      replaceAllAux pat rep fuel l = replaceAllAux pat rep l.length l := by
  intro fuel
  induction fuel using Nat.strong_induction_on with
  | _ fuel ih =>
    intro l hl
    cases fuel with
    | zero =>
      have hl0 : l = [] := List.length_eq_zero.mp (Nat.le_zero.mp hl)
      rw [hl0]
      rfl
    | succ f =>
      cases l with
      | nil => rfl
      | cons c rest =>
        have hrest : rest.length ≤ f := by simpa using hl
        by_cases hemp : pat.isEmpty = true
        · simp [replaceAllAux, hemp]
        · by_cases hsw : startsWith pat (c :: rest) = true
          · have hplen : 1 ≤ pat.length := by
              cases pat with
              | nil => simp [List.isEmpty] at hemp
              | cons x xs => simp
            have hdlen : ((c :: rest).drop pat.length).length ≤ rest.length := by
              rw [List.length_drop]
              simp only [List.length_cons]
              omega
            simp only [List.length_cons, replaceAllAux, hemp, hsw, Bool.false_eq_true,
              if_false, if_true]
            rw [ih f (Nat.lt_succ_self f) _ (le_trans hdlen hrest),
              ih rest.length (Nat.lt_succ_of_le hrest) _ hdlen]
          · simp only [List.length_cons, replaceAllAux, hemp, hsw, Bool.false_eq_true,
              if_false, if_true]
            rw [ih f (Nat.lt_succ_self f) rest hrest]

theorem replaceAll_of_none (pat rep : List Char) :
    ∀ l, splitFirst pat l = none → replaceAll pat rep l = l := by
  intro l
  induction l with
  | nil => intro _; rfl
  | cons c rest ih =>
    intro h
    have hpat : pat ≠ [] := by
      intro hp
      rw [hp] at h
      simp [splitFirst, startsWith] at h
    have hemp : pat.isEmpty = false := by
      cases pat with
      | nil => exact absurd rfl hpat
      | cons x xs => rfl
    have hsw : startsWith pat (c :: rest) = false := by
      cases hs : startsWith pat (c :: rest) with
      | false => rfl
      | true => simp [splitFirst, hs] at h
    have hrest : splitFirst pat rest = none := by
      simp only [splitFirst, hsw, Bool.false_eq_true, if_false] at h
      cases hs2 : splitFirst pat rest with
      | none => rfl
      | some x => rw [hs2] at h; simp at h
    show replaceAll pat rep (c :: rest) = c :: rest
    unfold replaceAll
    simp only [List.length_cons, replaceAllAux, hemp, hsw, Bool.false_eq_true,
      if_false]
    have hwrap : replaceAllAux pat rep rest.length rest = replaceAll pat rep rest := rfl
    rw [hwrap, ih hrest]

theorem replaceAll_split (pat rep : List Char) (hpat : pat ≠ []) :
    ∀ (l a b : List Char), splitFirst pat l = some (a, b) →
      replaceAll pat rep l = a ++ (rep ++ replaceAll pat rep b) := by
  intro l
  induction l with
  | nil =>
    intro a b h
    cases pat with
    | nil => exact absurd rfl hpat
    | cons p ps => simp [splitFirst, startsWith] at h
  | cons c rest ih =>
    intro a b h
    have hemp : pat.isEmpty = false := by
      cases pat with
      | nil => exact absurd rfl hpat
      | cons x xs => rfl
    have hplen : 1 ≤ pat.length := by
      cases pat with
      | nil => exact absurd rfl hpat
      | cons x xs => simp
    by_cases hsw : startsWith pat (c :: rest) = true
    · simp only [splitFirst, hsw, if_true] at h
      injection h with h
      injection h with h1 h2
      have hdlen : ((c :: rest).drop pat.length).length ≤ rest.length := by
        rw [List.length_drop]
        simp only [List.length_cons]
        omega
      show replaceAll pat rep (c :: rest) = a ++ (rep ++ replaceAll pat rep b)
      unfold replaceAll
      simp only [List.length_cons, replaceAllAux, hemp, hsw, Bool.false_eq_true,
        if_false, if_true]
      rw [replaceAllAux_fuel pat rep rest.length _ hdlen]
      rw [← h1, ← h2]
      rfl
    · simp only [splitFirst, hsw, Bool.false_eq_true, if_false] at h
      cases hs : splitFirst pat rest with
      | none => rw [hs] at h; simp at h
      | some x =>
        obtain ⟨a2, b2⟩ := x
        rw [hs] at h
        simp only [Option.map_some'] at h
        injection h with h
        injection h with h1 h2
        show replaceAll pat rep (c :: rest) = a ++ (rep ++ replaceAll pat rep b)
        unfold replaceAll
        simp only [List.length_cons, replaceAllAux, hemp, hsw, Bool.false_eq_true,
          if_false]
        have hwrap : replaceAllAux pat rep rest.length rest = replaceAll pat rep rest := rfl
        rw [hwrap, ih a2 b2 hs, ← h1, ← h2]
        rfl

theorem dropWhile_decomp (p : Char → Bool) (l : List Char) :
    ∃ u, l = u ++ l.dropWhile p := by
  induction l with
  | nil => exact ⟨[], rfl⟩
  | cons c rest ih =>
    by_cases h : p c = true
    · obtain ⟨u, hu⟩ := ih
      refine ⟨c :: u, ?_⟩
      rw [List.dropWhile_cons, if_pos h, List.cons_append, ← hu]
    · refine ⟨[], ?_⟩
      rw [List.dropWhile_cons, if_neg (by simp [h]), List.nil_append]

theorem dropTrail_decomp (p : Char → Bool) (a : List Char) :
    ∃ v, a = dropTrail p a ++ v := by
  obtain ⟨u2, hu2⟩ := dropWhile_decomp p a.reverse
  refine ⟨u2.reverse, ?_⟩
  unfold dropTrail
  calc a = a.reverse.reverse := (List.reverse_reverse a).symm
  _ = (u2 ++ a.reverse.dropWhile p).reverse := by rw [← hu2]
  _ = (a.reverse.dropWhile p).reverse ++ u2.reverse := by rw [List.reverse_append]

theorem stripBy_decomp (p : Char → Bool) (l : List Char) :
    ∃ u v, l = u ++ (stripBy p l ++ v) := by
  obtain ⟨u, hu⟩ := dropWhile_decomp p l
  obtain ⟨v, hv⟩ := dropTrail_decomp p (l.dropWhile p)
  refine ⟨u, v, ?_⟩
  conv_lhs => rw [hu, hv]
  rfl

theorem containsSub_of_stripBy (pat : List Char) (p : Char → Bool) (l : List Char)
    (h : containsSub pat (stripBy p l) = true) : containsSub pat l = true := by
  obtain ⟨u, v, hl⟩ := stripBy_decomp p l
  obtain ⟨a, b, hs⟩ := (containsSub_iff pat _).mp h
  refine (containsSub_iff pat l).mpr ⟨u ++ a, b ++ (v ++ []), ?_⟩
  rw [hl, hs]
  simp [List.append_assoc]

theorem head?_dropWhile_ne (p : Char → Bool) :
    ∀ (l : List Char) (c : Char), (l.dropWhile p).head? = some c → p c = false := by
  intro l
  induction l with
  | nil => intro c h; simp at h
  | cons x rest ih =>
    intro c h
    by_cases hx : p x = true
    · rw [List.dropWhile_cons, if_pos hx] at h
      exact ih c h
    · rw [List.dropWhile_cons, if_neg (by simp [hx])] at h
      simp only [List.head?_cons, Option.some.injEq] at h
      rw [← h]
      simp at hx
      exact hx

theorem head?_stripBy (p : Char → Bool) (l : List Char) (c : Char)
    (h : (stripBy p l).head? = some c) : p c = false := by
  unfold stripBy dropTrail at h
  obtain ⟨v, hv⟩ := dropTrail_decomp p (l.dropWhile p)
  cases hz : ((l.dropWhile p).reverse.dropWhile p).reverse with
  | nil => rw [hz] at h; simp at h
  | cons d ds =>
    rw [hz] at h
    simp only [List.head?_cons, Option.some.injEq] at h
    have hhead : (l.dropWhile p).head? = some d := by
      unfold dropTrail at hv
      rw [hv, hz, List.cons_append]
      rfl
    rw [← h]
    exact head?_dropWhile_ne p l d hhead

theorem getLast?_stripBy (p : Char → Bool) (l : List Char) (c : Char)
    (h : (stripBy p l).getLast? = some c) : p c = false := by
  unfold stripBy dropTrail at h
  rw [← List.head?_reverse, List.reverse_reverse] at h
  exact head?_dropWhile_ne p (l.dropWhile p).reverse c h

theorem mem_of_mem_stripBy (p : Char → Bool) (l : List Char) (c : Char)
    (h : c ∈ stripBy p l) : c ∈ l := by
  obtain ⟨u, v, hl⟩ := stripBy_decomp p l
  rw [hl]
  exact List.mem_append.mpr (Or.inr (List.mem_append.mpr (Or.inl h)))

theorem mem_replaceAllAux (pat rep : List Char) (c : Char) :
    ∀ fuel (l : List Char), c ∈ replaceAllAux pat rep fuel l → c ∈ l ∨ c ∈ rep := by
  intro fuel
  induction fuel with
  | zero =>
    intro l h
    cases l with
    | nil => simp [replaceAllAux] at h
    | cons x rest => exact Or.inl h
  | succ f ih =>
    intro l h
    cases l with
    | nil => simp [replaceAllAux] at h
    | cons x rest =>
      by_cases hemp : pat.isEmpty = true
      · simp only [replaceAllAux, hemp, if_true] at h
        exact Or.inl h
      · by_cases hsw : startsWith pat (x :: rest) = true
        · simp only [replaceAllAux, hemp, hsw, Bool.false_eq_true, if_false, if_true] at h
          rcases List.mem_append.mp h with hrep | hrec
          · exact Or.inr hrep
          · rcases ih _ hrec with hm | hm
            · exact Or.inl (List.mem_of_mem_drop hm)
            · exact Or.inr hm
        · simp only [replaceAllAux, hemp, hsw, Bool.false_eq_true, if_false] at h
          rcases List.mem_cons.mp h with hx | hrec
          · exact Or.inl (by rw [hx]; exact List.mem_cons_self x rest)
          · rcases ih _ hrec with hm | hm
            · exact Or.inl (List.mem_cons_of_mem x hm)
            · exact Or.inr hm

theorem mem_replaceAll (pat rep l : List Char) (c : Char)
    (h : c ∈ replaceAll pat rep l) : c ∈ l ∨ c ∈ rep :=
  mem_replaceAllAux pat rep c l.length l h

theorem noBorder_SLIST : noBorderP SLIST := by
  unfold noBorderP
  decide

theorem noBorder_ELIST : noBorderP ELIST := by
  unfold noBorderP
  decide

theorem SLIST_ne_nil : SLIST ≠ [] := by decide

theorem ELIST_ne_nil : ELIST ≠ [] := by decide

/-! ## Lemmas about the ingestion loop -/

theorem foldl_stepChunk_invariant :
    ∀ (l : List ChunkEv) (st : IngestState), st.batch < BATCH_SIZE →
      ((l.foldl stepChunk st).upsertCalls
          = st.upsertCalls + (st.batch + okCount l) / BATCH_SIZE)
      ∧ ((l.foldl stepChunk st).batch = (st.batch + okCount l) % BATCH_SIZE)
      ∧ ((l.foldl stepChunk st).batch < BATCH_SIZE) := by
  intro l
  induction l with
  | nil =>
    intro st hst
    simp only [List.foldl_nil, okCount]
    unfold BATCH_SIZE at hst ⊢
    refine ⟨?_, ?_, hst⟩ <;> omega
  | cons ev rest ih =>
    intro st hst
    cases ev with
    | emptyText =>
      simpa only [List.foldl_cons, stepChunk, okCount] using ih st hst
    | embedFail =>
      simpa only [List.foldl_cons, stepChunk, okCount] using ih st hst
    | embedOk =>
      have hstep : stepChunk st ChunkEv.embedOk =
          if st.batch + 1 ≥ BATCH_SIZE then
            ⟨0, st.total_vectors + 1, st.upsertCalls + 1, st.submitted + (st.batch + 1)⟩
          else ⟨st.batch + 1, st.total_vectors + 1, st.upsertCalls, st.submitted⟩ := rfl
      simp only [List.foldl_cons, hstep, okCount]
      by_cases h50 : st.batch + 1 ≥ BATCH_SIZE
      · rw [if_pos h50]
        obtain ⟨h1, h2, h3⟩ :=
          ih ⟨0, st.total_vectors + 1, st.upsertCalls + 1, st.submitted + (st.batch + 1)⟩
            (by simp [BATCH_SIZE])
        dsimp only at h1 h2
        refine ⟨?_, ?_, h3⟩
        · rw [h1]
          unfold BATCH_SIZE at h50 hst ⊢
          omega
        · rw [h2]
          unfold BATCH_SIZE at h50 hst ⊢
          omega
      · rw [if_neg h50]
        obtain ⟨h1, h2, h3⟩ :=
          ih ⟨st.batch + 1, st.total_vectors + 1, st.upsertCalls, st.submitted⟩
            (by dsimp only; unfold BATCH_SIZE at h50 ⊢; omega)
        dsimp only at h1 h2
        refine ⟨?_, ?_, h3⟩
        · rw [h1]
          unfold BATCH_SIZE at h50 hst ⊢
          omega
        · rw [h2]
          unfold BATCH_SIZE at h50 hst ⊢
          omega

/-! ## Claims about the ingestion script -/

/-- Concrete ingestion run used to exhibit the double-counting of the final
batch: one chunk embeds successfully and every upsert succeeds. -/
def c6FailingEnv : IngestEnv := ⟨true, [ChunkEv.embedOk], fun _ => true⟩

/-- C6: the run with a single successfully embedded chunk and fully
successful upserts submits exactly 1 vector in upsert calls, yet the script's
reported total (`total_vectors` printed at line 169 of src/index_data.py)
is 2 — the chunk is counted once when embedded (line 129) and again when the
final batch upsert succeeds (line 163).  This contradicts the claim that
every successfully embedded chunk is counted exactly once. -/
theorem c6_final_batch_double_count :
    (index_data_optimized c6FailingEnv).total_vectors = 2
    ∧ (index_data_optimized c6FailingEnv).submitted = 1
    ∧ (index_data_optimized c6FailingEnv).upsertCalls = 1 := by
  refine ⟨rfl, rfl, rfl⟩

/-- C7: for every run whose clients initialize, the number of `upsert` calls
equals `ceil(N / B)` where `N` is the number of successfully embedded chunks
and `B = BATCH_SIZE = 50`: a batch is flushed exactly when the accumulator
reaches `BATCH_SIZE` and once more at end-of-stream for a non-empty
remainder.  The count does not depend on `upsertOk` at all: a failed upsert
discards its batch without any retry and processing continues. -/
theorem c7_upsert_call_count (env : IngestEnv) (h : env.initOk = true) :
    (index_data_optimized env).upsertCalls
      = (okCount env.chunks + (BATCH_SIZE - 1)) / BATCH_SIZE := by
  unfold index_data_optimized
  rw [h]
  simp only [if_true]
  obtain ⟨h1, h2, h3⟩ :=
    foldl_stepChunk_invariant env.chunks ⟨0, 0, 0, 0⟩ (by simp [BATCH_SIZE])
  dsimp only at h1 h2
  by_cases hb : (env.chunks.foldl stepChunk ⟨0, 0, 0, 0⟩).batch > 0
  · rw [if_pos hb]
    by_cases hu : env.upsertOk (env.chunks.foldl stepChunk ⟨0, 0, 0, 0⟩).upsertCalls = true
    · rw [if_pos hu]
      dsimp only
      rw [h1]
      rw [h2] at hb
      unfold BATCH_SIZE at hb ⊢
      omega
    · rw [if_neg hu]
      dsimp only
      rw [h1]
      rw [h2] at hb
      unfold BATCH_SIZE at hb ⊢
      omega
  · rw [if_neg hb]
    rw [h1]
    rw [h2] at hb
    unfold BATCH_SIZE at hb ⊢
    omega

/-- Concrete run for the C7 witness: four chunks, two of which embed
successfully, one mid-run upsert failure configured (it never fires because
the batch never reaches 50; the remainder flush is the only call). -/
def c7WitnessEnv : IngestEnv :=
  ⟨true, [ChunkEv.embedOk, ChunkEv.emptyText, ChunkEv.embedFail, ChunkEv.embedOk],
    fun k => k ≠ 0⟩

theorem c7_upsert_call_count_witness :
    (index_data_optimized c7WitnessEnv).upsertCalls
      = (okCount c7WitnessEnv.chunks + (BATCH_SIZE - 1)) / BATCH_SIZE :=
  c7_upsert_call_count c7WitnessEnv rfl

/-- Concrete run for the C5 counterexample: `DATA_URL` is configured, the
archive download fails with a network error, and the API credentials are
missing (`initOk = false`). -/
def c5CexEnv : MainEnv :=
  ⟨some "https://example.com/data.zip".toList, DlOutcome.netError,
    ⟨false, [], fun _ => true⟩⟩

/-- C5 counterexample: the claim demands a non-zero exit code whenever the
archive download fails, but on this run — download fails with a network
error, credentials missing as well — the script's exit code is 0: the
failure only prints `PROCESO FALLIDO` and execution falls through to the
cleanup and the end of the script. -/
theorem c5_download_failure_exits_zero :
    main_exit c5CexEnv = 0 ∧ c5CexEnv.dl = DlOutcome.netError := ⟨rfl, rfl⟩

/-- C5 (amended): the exit code is 0 whenever `DATA_URL` is set — including
runs with per-file, per-batch, download or client-initialization failures —
and non-zero exactly when `DATA_URL` is missing, whose `ValueError`
(src/index_data.py line 24) is the script's only uncaught exception. -/
theorem c5_exit_code (env : MainEnv) :
    main_exit env = if env.dataUrl.isSome then 0 else 1 := by
  unfold main_exit download_and_extract_data
  cases env.dataUrl with
  | none => rfl
  | some u =>
    cases env.dl with
    | ok => rfl
    | netError => rfl
    | badZip => rfl
    | otherError => rfl

/-! ## Claims about the query endpoint -/

/-- A request whose recaptcha token fails validation. -/
def c1FailingEnv : Env := ⟨false, [], []⟩

/-- C1 at its failing input: when `validate_recaptcha` returns `False`, the
endpoint responds with HTTP 500 and the generic message — not the 403 of the
`HTTPException` raised at line 252, because the blanket `except Exception`
at line 285 catches that exception and replaces it — while, as the claim
says, no embedding, retrieval or generation call is made. -/
theorem c1_recaptcha_failure_yields_500 :
    process_query c1FailingEnv = ((500, generic_error_detail), ⟨0, 0, [], []⟩) := rfl

/-- A request whose retrieval returns zero matches. -/
def c2CexEnv : Env := ⟨true, [], ["Hola, soy Agorito.".toList]⟩

/-- C2 counterexample: on a request whose retrieval returns zero matches the
chat-completion API is nevertheless called (once), contradicting the claim
that it is never called for such a request; no canned "no relevant
information" answer exists in the code. -/
theorem c2_zero_matches_generator_called_cex :
    c2CexEnv.queryMatches = [] ∧ (process_query c2CexEnv).2.chat.length = 1 :=
  ⟨rfl, rfl⟩

/-- C2 (amended): when retrieval returns zero matches, the endpoint does not
short-circuit: it still calls the chat-completion API exactly once — with an
empty context joined into the prompt — and returns the post-processed model
output as the answer. -/
theorem c2_zero_matches_still_generates (env : Env) (raw : List Char)
    (rest : List (List Char)) (h1 : env.recaptcha_ok = true)
    (hm : env.queryMatches = []) (h2 : env.chatChoices = raw :: rest) :
    (process_query env).2.chat = [⟨GENERATION_MODEL, 0, []⟩]
    ∧ (process_query env).1 = (200, (postprocess raw).1) := by
  unfold process_query
  simp only [h1, hm, h2, if_true]
  constructor <;> trivial

def c2WitnessEnv : Env := ⟨true, [], ["Hola.".toList]⟩

theorem c2_zero_matches_still_generates_witness :
    (process_query c2WitnessEnv).2.chat = [⟨GENERATION_MODEL, 0, []⟩]
    ∧ (process_query c2WitnessEnv).1 = (200, (postprocess "Hola.".toList).1) :=
  c2_zero_matches_still_generates c2WitnessEnv "Hola.".toList [] rfl rfl rfl

/-- C8 counterexample: the llama-index variant (src/api/index.py line 37)
configures its generation LLM with temperature 0.1, contradicting the claim
that the temperature is fixed at 0 in every variant of the query service. -/
theorem c8_llama_variant_temperature_not_zero :
    initialize_index_llm.temperature ≠ 0
    ∧ initialize_index_llm.temperature = 1 / 10 := by
  constructor
  · norm_num [initialize_index_llm]
  · rfl

/-- C8 (amended): in the main FastAPI variant (src/api.py) every answered
request issues exactly one chat-completion call, with temperature 0 and the
configured model, and the answer is computed from the single top response
choice; the llama-index variant deviates by configuring temperature 0.1. -/
theorem c8_main_variant_single_call_temp_zero (env : Env) (raw : List Char)
    (rest : List (List Char)) (h1 : env.recaptcha_ok = true)
    (h2 : env.chatChoices = raw :: rest) :
    (process_query env).2.chat
      = [⟨GENERATION_MODEL, 0, List.intercalate NLNL env.queryMatches⟩]
    ∧ (process_query env).1 = (200, (postprocess raw).1) := by
  unfold process_query
  simp only [h1, h2, if_true]
  constructor <;> trivial

def c8WitnessEnv : Env := ⟨true, ["contexto legal".toList], ["Respuesta.".toList]⟩

theorem c8_main_variant_single_call_temp_zero_witness :
    (process_query c8WitnessEnv).2.chat
      = [⟨GENERATION_MODEL, 0, List.intercalate NLNL c8WitnessEnv.queryMatches⟩]
    ∧ (process_query c8WitnessEnv).1 = (200, (postprocess "Respuesta.".toList).1) :=
  c8_main_variant_single_call_temp_zero c8WitnessEnv "Respuesta.".toList [] rfl rfl

/-- A generated answer in which the two sentinel tokens appear in the wrong
order: the end tag comes first. -/
def c4CexRaw : List Char := ELIST ++ ("x".toList ++ (SLIST ++ "y".toList))

/-- C4 counterexample: with the sentinels present in the wrong order the
claim demands that no dispatch is attempted, but the code's check at
line 265 only tests membership of each tag, so the summary branch runs and
`send_summary_email` is invoked (here with the text `"y"`). -/
theorem c4_wrong_order_still_dispatches :
    (postprocess c4CexRaw).2 = [("y".toList, "y".toList)]
    ∧ (postprocess c4CexRaw).1 = c4CexRaw := by
  exact ⟨rfl, rfl⟩

/-- C4 (amended): when at least one of the sentinel tokens is absent from
the generated text, the full raw text is returned to the caller unmodified
and `send_summary_email` is never invoked; when both tokens are present —
in either order — the summary branch runs and a dispatch is attempted. -/
theorem c4_missing_sentinel_passthrough (raw : List Char)
    (h : (containsSub SLIST raw && containsSub ELIST raw) = false) :
    postprocess raw = (raw, []) := by
  simp [postprocess, h]

theorem c4_missing_sentinel_passthrough_witness :
    postprocess "Hola, un gusto ayudarte.".toList
      = ("Hola, un gusto ayudarte.".toList, []) :=
  c4_missing_sentinel_passthrough "Hola, un gusto ayudarte.".toList (by decide)

/-- A generated answer whose summary block encloses whitespace-padded text:
`"A" + SLIST + " x " + ELIST + "B"`. -/
def c3CexRaw : List Char :=
  "A".toList ++ (SLIST ++ (" x ".toList ++ (ELIST ++ "B".toList)))

/-- C3 counterexample: the code strips the enclosed text (`" x "` becomes
`"x"`) before rebuilding the block for `replace` (line 274), so the rebuilt
block does not occur in the raw text, nothing is removed, and the answer
returned to the caller still contains the start sentinel (and the enclosed
text); the dispatcher moreover receives the stripped text `"x"`, not the
enclosed `" x "`. -/
theorem c3_whitespace_summary_cex :
    containsSub SLIST (postprocess c3CexRaw).1 = true
    ∧ (postprocess c3CexRaw).2 = [("x".toList, "x".toList)] := ⟨rfl, rfl⟩

/-- C3 (amended): for a generated answer `p + SLIST + t + ELIST + s` in
which the enclosed text `t` carries no leading or trailing whitespace, the
start tag occurs nowhere after its shown position, the end tag does not
occur inside `t`, and neither tag nor `t` occurs in `p ++ s`: the dispatcher
is invoked with `t` (as both subject and body), the answer is `p ++ s`
stripped, and the answer contains neither sentinel token nor the enclosed
text. -/
theorem c3_summary_extraction (p t s : List Char)
    (h0 : pyStrip t = t)
    (h2 : containsSub SLIST (t ++ (ELIST ++ s)) = false)
    (h3 : containsSub ELIST t = false)
    (h5 : containsSub SLIST (p ++ s) = false)
    (h6 : containsSub ELIST (p ++ s) = false)
    (h7 : containsSub t (p ++ s) = false) :
    (postprocess (p ++ (SLIST ++ (t ++ (ELIST ++ s))))).2 = [(t, t)]
    ∧ (postprocess (p ++ (SLIST ++ (t ++ (ELIST ++ s))))).1 = pyStrip (p ++ s)
    ∧ containsSub SLIST (postprocess (p ++ (SLIST ++ (t ++ (ELIST ++ s))))).1 = false
    ∧ containsSub ELIST (postprocess (p ++ (SLIST ++ (t ++ (ELIST ++ s))))).1 = false
    ∧ containsSub t (postprocess (p ++ (SLIST ++ (t ++ (ELIST ++ s))))).1 = false := by
  set raw := p ++ (SLIST ++ (t ++ (ELIST ++ s))) with hraw
  have hSp : containsSub SLIST p = false := by
    cases hx : containsSub SLIST p with
    | false => rfl
    | true =>
      exfalso
      have hz := containsSub_right_extend SLIST p s hx
      rw [h5] at hz
      simp at hz
  have hsf1 : splitFirst SLIST raw = some (p, t ++ (ELIST ++ s)) :=
    splitFirst_at SLIST SLIST p (t ++ (ELIST ++ s))
      ((startsWith_iff _ _).mpr ⟨[], (List.append_nil _).symm⟩)
      SLIST_ne_nil noBorder_SLIST hSp
  have hcS : containsSub SLIST raw = true := by
    unfold containsSub
    rw [hsf1]
    rfl
  have hcE : containsSub ELIST raw = true := by
    refine (containsSub_iff _ _).mpr ⟨p ++ (SLIST ++ t), s, ?_⟩
    rw [hraw]
    simp [List.append_assoc]
  have hsegS : splitFirst SLIST (t ++ (ELIST ++ s)) = none := splitFirst_eq_none _ _ h2
  have hsegE : splitFirst ELIST (t ++ (ELIST ++ s)) = some (t, s) :=
    splitFirst_at ELIST ELIST t s
      ((startsWith_iff _ _).mpr ⟨[], (List.append_nil _).symm⟩)
      ELIST_ne_nil noBorder_ELIST h3
  have hblock_ne : SLIST ++ (t ++ ELIST) ≠ [] := by
    intro hx
    exact SLIST_ne_nil (List.append_eq_nil.mp hx).1
  have hsfb : splitFirst (SLIST ++ (t ++ ELIST)) raw = some (p, s) := by
    have hshape : raw = p ++ ((SLIST ++ (t ++ ELIST)) ++ s) := by
      rw [hraw]
      simp [List.append_assoc]
    rw [hshape]
    exact splitFirst_at (SLIST ++ (t ++ ELIST)) SLIST p s
      ((startsWith_iff _ _).mpr ⟨t ++ ELIST, rfl⟩)
      SLIST_ne_nil noBorder_SLIST hSp
  have hnoafter : splitFirst (SLIST ++ (t ++ ELIST)) s = none := by
    apply splitFirst_eq_none
    cases hx : containsSub (SLIST ++ (t ++ ELIST)) s with
    | false => rfl
    | true =>
      exfalso
      obtain ⟨a, b, hs⟩ := (containsSub_iff _ _).mp hx
      have hzS : containsSub SLIST s = true := by
        refine (containsSub_iff _ _).mpr ⟨a, t ++ (ELIST ++ b), ?_⟩
        rw [hs]
        simp [List.append_assoc]
      have h2s := containsSub_left_extend SLIST s (t ++ ELIST) hzS
      rw [List.append_assoc] at h2s
      rw [h2] at h2s
      simp at h2s
  have hrepl : replaceAll (SLIST ++ (t ++ ELIST)) [] raw = p ++ s := by
    rw [replaceAll_split _ [] hblock_ne raw p s hsfb,
      replaceAll_of_none _ [] s hnoafter]
    simp
  have hcompute : postprocess raw = (pyStrip (p ++ s), [(t, t)]) := by
    unfold postprocess splitHead
    rw [hcS, hcE]
    simp only [Bool.and_self, if_true]
    rw [hsf1]
    simp only [Option.map_some', Option.getD_some]
    rw [hsegS, hsegE, h0, hrepl]
  have hfin : ∀ pat, containsSub pat (p ++ s) = false →
      containsSub pat (pyStrip (p ++ s)) = false := by
    intro pat hx
    cases hy : containsSub pat (pyStrip (p ++ s)) with
    | false => rfl
    | true =>
      exfalso
      have hz := containsSub_of_stripBy pat isPySpace (p ++ s) hy
      rw [hx] at hz
      simp at hz
  rw [hcompute]
  exact ⟨rfl, rfl, hfin SLIST h5, hfin ELIST h6, hfin t h7⟩

def c3WitnessP : List Char := "Gracias. ".toList

def c3WitnessT : List Char := "Nombre: Juan".toList

def c3WitnessS : List Char := " Listo.".toList

theorem c3_summary_extraction_witness :
    (postprocess (c3WitnessP ++ (SLIST ++ (c3WitnessT ++ (ELIST ++ c3WitnessS))))).2
      = [(c3WitnessT, c3WitnessT)]
    ∧ (postprocess (c3WitnessP ++ (SLIST ++ (c3WitnessT ++ (ELIST ++ c3WitnessS))))).1
      = pyStrip (c3WitnessP ++ c3WitnessS)
    ∧ containsSub SLIST
        (postprocess (c3WitnessP ++ (SLIST ++ (c3WitnessT ++ (ELIST ++ c3WitnessS))))).1
      = false
    ∧ containsSub ELIST
        (postprocess (c3WitnessP ++ (SLIST ++ (c3WitnessT ++ (ELIST ++ c3WitnessS))))).1
      = false
    ∧ containsSub c3WitnessT
        (postprocess (c3WitnessP ++ (SLIST ++ (c3WitnessT ++ (ELIST ++ c3WitnessS))))).1
      = false :=
  c3_summary_extraction c3WitnessP c3WitnessT c3WitnessS (by decide) (by decide)
    (by decide) (by decide) (by decide) (by decide)

/-! ## Claims about the lead dispatcher and the filename sanitizer -/

/-- C9: `send_summary_email` is a total boolean-returning function of its
inputs and the SMTP outcome — every failure path returns `False` rather than
propagating an exception — and whenever the literal `"Subject:"`/`"Body:"`
markers are missing from the input text, the message it builds falls back to
the raw input text as the body and the substituted generic subject.  The
call succeeds (returns `True`) exactly when the SMTP variables are all set,
the port is one of the two supported values, and the SMTP session succeeds. -/
theorem c9_email_fallback_and_result (cfg : SmtpConfig) (outcome : SmtpOutcome)
    (text : List Char)
    (h : (containsSub subjMark text && containsSub bodyMark text) = false) :
    ((send_summary_email cfg outcome text text).1 = true ↔
      ((cfg.server.isNone || cfg.port.isNone || cfg.username.isNone
          || cfg.password.isNone) = false
        ∧ (cfg.port == some ("465".toList) || cfg.port == some ("587".toList)) = true
        ∧ outcome = SmtpOutcome.ok))
    ∧ (∀ m, (send_summary_email cfg outcome text text).2 = some m
        → m = (fallbackSubject, text)) := by
  have hparse : parse_subject_body text text = (fallbackSubject, text) := by
    simp [parse_subject_body, h]
  constructor
  · unfold send_summary_email
    cases hb1 : (cfg.server.isNone || cfg.port.isNone || cfg.username.isNone
        || cfg.password.isNone) with
    | true => simp [hb1]
    | false =>
      cases hb2 : (cfg.port == some ("465".toList) || cfg.port == some ("587".toList)) with
      | true => cases outcome <;> simp [hb1, hb2]
      | false => simp [hb1, hb2]
  · intro m hm
    unfold send_summary_email at hm
    cases hb1 : (cfg.server.isNone || cfg.port.isNone || cfg.username.isNone
        || cfg.password.isNone) with
    | true => rw [hb1] at hm; simp at hm
    | false =>
      rw [hb1] at hm
      cases hb2 : (cfg.port == some ("465".toList) || cfg.port == some ("587".toList)) with
      | true =>
        rw [hb2] at hm
        cases outcome <;> simp at hm <;> rw [← hm, hparse]
      | false =>
        rw [hb2] at hm
        simp at hm
        rw [← hm, hparse]

def c9WitnessCfg : SmtpConfig :=
  ⟨some "smtp.hostinger.com".toList, some "465".toList,
    some "leads@abogados-sf.com".toList, some "secreto".toList⟩

theorem c9_email_fallback_and_result_witness :
    ((send_summary_email c9WitnessCfg SmtpOutcome.ok "hola".toList "hola".toList).1 = true ↔
      ((c9WitnessCfg.server.isNone || c9WitnessCfg.port.isNone
          || c9WitnessCfg.username.isNone || c9WitnessCfg.password.isNone) = false
        ∧ (c9WitnessCfg.port == some ("465".toList)
            || c9WitnessCfg.port == some ("587".toList)) = true
        ∧ SmtpOutcome.ok = SmtpOutcome.ok))
    ∧ (∀ m, (send_summary_email c9WitnessCfg SmtpOutcome.ok "hola".toList "hola".toList).2
          = some m → m = (fallbackSubject, "hola".toList)) :=
  c9_email_fallback_and_result c9WitnessCfg SmtpOutcome.ok "hola".toList (by decide)

/-- C10: for every input, `sanitize_filename` yields a string whose
characters are ASCII alphanumerics, `'.'`, `'-'` or `'_'`, that neither
starts nor ends with `'_'`; and the ingestion vector id `make_chunk_id`
(line 105 of src/index_data.py) is built with this sanitized name as its
prefix. -/
theorem c10_sanitize_filename_charset (f : List Char) :
    (∀ c, c ∈ sanitize_filename f →
        (c.isAlphanum || c == '.' || c == '-' || c == '_') = true)
    ∧ (sanitize_filename f).head? ≠ some '_'
    ∧ (sanitize_filename f).getLast? ≠ some '_'
    ∧ ∀ i uuid, ∃ rest, make_chunk_id f i uuid = sanitize_filename f ++ rest := by
  refine ⟨?_, ?_, ?_, ?_⟩
  · intro c hc
    unfold sanitize_filename at hc
    have hc2 := mem_of_mem_stripBy _ _ c hc
    rcases mem_replaceAll _ _ _ c hc2 with hm | hm
    · obtain ⟨d, hd, hmap⟩ := List.mem_map.mp hm
      by_cases hk : (d.isAlphanum || d == '.' || d == '-') = true
      · rw [if_pos hk] at hmap
        rw [← hmap]
        simp only [Bool.or_eq_true] at hk ⊢
        tauto
      · rw [if_neg hk] at hmap
        rw [← hmap]
        simp
    · have hm2 : c = '_' := by simpa using hm
      rw [hm2]
      simp
  · intro hh
    unfold sanitize_filename at hh
    have hz := head?_stripBy (fun c => c == '_') _ '_' hh
    simp at hz
  · intro hh
    unfold sanitize_filename at hh
    have hz := getLast?_stripBy (fun c => c == '_') _ '_' hh
    simp at hz
  · intro i uuid
    exact ⟨_, rfl⟩

theorem c10_sanitize_filename_charset_witness :
    ('h'.isAlphanum || 'h' == '.' || 'h' == '-' || 'h' == '_') = true
    ∧ (sanitize_filename "hola mundo.txt".toList).head? ≠ some '_' :=
  ⟨(c10_sanitize_filename_charset "hola mundo.txt".toList).1 'h' (by decide),
    (c10_sanitize_filename_charset "hola mundo.txt".toList).2.1⟩
